import Mathlib

/-!
Verification development for the Tulsi Mach-O post-processor
(src/tools/post_processor).  Bytes are modelled as natural numbers below
256, buffers as lists of bytes, and the C++ routines of
dwarf_buffer_reader.cc, covmap_section.cc, covmap_patcher.cc and
dwarf_string_patcher.cc are translated into executable Lean definitions.
Where a routine is declared in the headers but its definition is not part
of the sources (ReadASCIIZ, ReadSectionData / WriteSectionData), the
definition is modelled from the specification and marked as such.
-/

namespace PostProcessor

/-- Result codes from return_code.h. -/
inductive ReturnCode where
  | ok
  | openFailed
  | readFailed
  | invalidFile
  | outOfMemory
  | notImplemented
  | writeFailed
  | writeDeferred
  deriving DecidableEq, Repr

/-- Byte swap of a 16-bit value (OSSwapInt16): the pure function that
returns its argument with the two bytes exchanged. -/
def swap16 (v : Nat) : Nat := v % 256 * 256 + v / 256 % 256

/-- Byte swap of a 32-bit value (OSSwapInt32). -/
def swap32 (v : Nat) : Nat :=
  v % 256 * 16777216 + v / 256 % 256 * 65536 + v / 65536 % 256 * 256 +
    v / 16777216 % 256

/-- Byte swap of a 64-bit value (OSSwapInt64). -/
def swap64 (v : Nat) : Nat :=
  swap32 (v % 4294967296) * 4294967296 + swap32 (v / 4294967296)

/-- DWARFBufferReader::ReadByte (dwarf_buffer_reader.h, lines 44-49): if a
byte remains at the cursor it is returned and the cursor advances. -/
def readByte : List Nat → Option (Nat × List Nat)
  | [] => none
  | b :: rest => some (b, rest)

/-- DWARFBufferReader::ReadWORD (dwarf_buffer_reader.cc, lines 34-46).  The
two bytes at the cursor are reinterpreted as a uint16 on the little-endian
host.  Line 43 calls OSSwapInt16 on the value when swap_byte_ordering_ is
set, but the returned value of the call is discarded (OSSwapInt16 is a pure
function of its argument), so the raw value is returned either way; the
discarded call is kept here as an unused binding. -/
def readWORD (swap : Bool) : List Nat → Option (Nat × List Nat)
  | b0 :: b1 :: rest =>
      let v := b0 + 256 * b1
      let _ := if swap then swap16 v else v
      some (v, rest)
  | _ => none

/-- DWARFBufferReader::ReadDWORD (dwarf_buffer_reader.cc, lines 48-60); the
OSSwapInt32 result on line 57 is likewise discarded. -/
def readDWORD (swap : Bool) : List Nat → Option (Nat × List Nat)
  | b0 :: b1 :: b2 :: b3 :: rest =>
      let v := b0 + 256 * b1 + 65536 * b2 + 16777216 * b3
      let _ := if swap then swap32 v else v
      some (v, rest)
  | _ => none

/-- DWARFBufferReader::ReadQWORD (dwarf_buffer_reader.cc, lines 62-74); the
OSSwapInt64 result on line 71 is likewise discarded. -/
def readQWORD (swap : Bool) : List Nat → Option (Nat × List Nat)
  | b0 :: b1 :: b2 :: b3 :: b4 :: b5 :: b6 :: b7 :: rest =>
      let v := b0 + 256 * b1 + 65536 * b2 + 16777216 * b3 +
        4294967296 * (b4 + 256 * b5 + 65536 * b6 + 16777216 * b7)
      let _ := if swap then swap64 v else v
      some (v, rest)
  | _ => none

/-- The reader behavior documented for readU16 in the spec (§4.1) and in the
CovmapSection constructor comment: values read are translated to host byte
order when the swap flag is set. -/
def readWORDSpec (swap : Bool) : List Nat → Option (Nat × List Nat)
  | b0 :: b1 :: rest =>
      let v := b0 + 256 * b1
      some (if swap then swap16 v else v, rest)
  | _ => none

/-- The documented behavior of readU32: byte-swap into host order when the
swap flag is set. -/
def readDWORDSpec (swap : Bool) : List Nat → Option (Nat × List Nat)
  | b0 :: b1 :: b2 :: b3 :: rest =>
      let v := b0 + 256 * b1 + 65536 * b2 + 16777216 * b3
      some (if swap then swap32 v else v, rest)
  | _ => none

/-- The documented behavior of readU64: byte-swap into host order when the
swap flag is set. -/
def readQWORDSpec (swap : Bool) : List Nat → Option (Nat × List Nat)
  | b0 :: b1 :: b2 :: b3 :: b4 :: b5 :: b6 :: b7 :: rest =>
      let v := b0 + 256 * b1 + 65536 * b2 + 16777216 * b3 +
        4294967296 * (b4 + 256 * b5 + 65536 * b6 + 16777216 * b7)
      some (if swap then swap64 v else v, rest)
  | _ => none

/-- DWARFBufferReader::ReadULEB128 (dwarf_buffer_reader.cc, lines 76-93).
Each iteration evaluates the C expression
`*out += ((uint)(b & 0x7F)) << shift;` where `uint` is 32 bits wide: the
shifted group is truncated modulo 2^32 before being accumulated into the
64-bit output (which itself wraps modulo 2^64).  The loop stops at the
first byte whose high bit is clear and fails when the buffer is exhausted
first.  (For encodings long enough to drive `shift` to 32 or more the C
shift of the C program is undefined behavior; the truncation semantics here is
what any shift below 32 performs, and no theorem below evaluates the
function on such inputs.) -/
def readULEB128 (buf : List Nat) (shift acc : Nat) : Option (Nat × List Nat) :=
  match buf with
  | [] => none
  | b :: rest =>
      let acc := (acc + b % 128 * 2 ^ shift % 4294967296) % 18446744073709551616
      if b % 256 < 128 then some (acc, rest)
      else readULEB128 rest (shift + 7) acc

/-- EncodedLEB128Size (covmap_section.cc, lines 30-36): the number of bytes
a ULEB128 encoding of the value occupies. -/
def encodedLEB128Size (value : Nat) : Nat :=
  if value < 128 then 1 else 1 + encodedLEB128Size (value / 128)
  decreasing_by exact Nat.div_lt_self (by omega) (by omega)

/-- EncodeLEB128 (covmap_section.cc, lines 38-48): appends the ULEB128
encoding of the value, 7 bits per byte, low group first, continuation bit
0x80 on every byte but the last. -/
def encodeLEB128 (value : Nat) : List Nat :=
  let b := value % 128
  if value / 128 = 0 then [b] else (b + 128) :: encodeLEB128 (value / 128)
  decreasing_by exact Nat.div_lt_self (by omega) (by omega)

/-- Mathematical ULEB128 decoding (the covmap/DWARF format reading of a
length-prefixed field): little-endian 7-bit groups, terminated by a byte
with high bit clear. -/
def decodeULEB : List Nat → Option (Nat × List Nat)
  | [] => none
  | b :: rest =>
      if b < 128 then some (b, rest)
      else
        match decodeULEB rest with
        | some (v, r) => some (b % 128 + 128 * v, r)
        | none => none

/-- CovmapSection::FilenameGroup (covmap_section.h): the filenames of one
coverage mapping together with the current serialized size of the group.  The
file offset field is omitted here because Serialize and CalculateSize do
not consult it. -/
structure FilenameGroup where
  size : Nat
  filenames : List (List Nat)
  deriving DecidableEq, Repr

/-- CovmapSection::FilenameGroup::CalculateSize (covmap_section.cc, lines
324-332): the serialized size is the ULEB128 size of the count plus, per
filename, the ULEB128 size of its length plus its length. -/
def calculateSize (filenames : List (List Nat)) : Nat :=
  encodedLEB128Size filenames.length +
    (filenames.map (fun f => encodedLEB128Size f.length + f.length)).sum

/-- The padding filename bytes emitted at the end of
CovmapSection::FilenameGroup::Serialize (covmap_section.cc, lines 380-416):
while more than 129 bytes remain a 127-NUL filename (128 bytes) is written;
exactly 129 remaining bytes are split into a 126-NUL filename (127 bytes)
followed by the residue; a residue p with 1 < p <= 128 becomes one filename
with length byte p - 1; a residue of exactly 1 writes nothing (the copy on
lines 411-413 is guarded by `padding > 1`). -/
def paddingBytes (p : Nat) : List Nat :=
  if 129 < p then 127 :: List.replicate 127 0 ++ paddingBytes (p - 128)
  else if p = 129 then 126 :: List.replicate 126 0 ++ paddingBytes 2
  else if 1 < p then (p - 1) :: List.replicate (p - 1) 0
  else []
  decreasing_by
  · omega
  · omega

/-- CovmapSection::FilenameGroup::Serialize (covmap_section.cc, lines
334-419).  The group is emitted as a ULEB128 string count followed by the
length-prefixed filenames in order; when the natural size falls short of
minimum_size, ceil(padding / 128) filler filenames are added to the count
and padding bytes are appended.  Returns none when growing the
ULEB128 encoding would use at least the whole padding (lines 357-367). -/
def serialize (g : FilenameGroup) (minimumSize : Nat) : Option (List Nat) :=
  let padding := if g.size < minimumSize then minimumSize - g.size else 0
  let body := (g.filenames.map (fun f => encodeLEB128 f.length ++ f)).flatten
  if padding = 0 then
    some (encodeLEB128 g.filenames.length ++ body)
  else
    let paddingStringsNeeded := (padding + 127) / 128
    let realStringCountSize := encodedLEB128Size g.filenames.length
    let stringCount := g.filenames.length + paddingStringsNeeded
    let paddedStringCountSize := encodedLEB128Size stringCount
    let additionalBytesUsed := paddedStringCountSize - realStringCountSize
    if padding ≤ additionalBytesUsed then none
    else some (encodeLEB128 stringCount ++ body ++ paddingBytes padding)

/-- Skips i length-prefixed filename entries and returns the content of the
next one; the reading of each entry mirrors ReadFilenameGroup
(covmap_section.cc, lines 255-281): a ULEB128 length followed by that many
bytes, failing when fewer bytes remain. -/
def entryAt : Nat → List Nat → Option (List Nat)
  | i, bytes =>
      match decodeULEB bytes with
      | none => none
      | some (len, r) =>
          if len ≤ r.length then
            match i with
            | 0 => some (r.take len)
            | i + 1 => entryAt i (r.drop len)
          else none

/-- The filename stored at index i of a serialized filename group, read per
the covmap format: a ULEB128 filename count followed by length-prefixed
filenames.  Coverage data references filenames by this index. -/
def filenameAtIndex (bytes : List Nat) (i : Nat) : Option (List Nat) :=
  match decodeULEB bytes with
  | none => none
  | some (_, r) => entryAt i r

/-- PatchString (dwarf_string_patcher.cc, lines 808-821): when the value is
at least as long as the old prefix and starts with it, the prefix is
replaced by the new one and true is returned; otherwise the value is left
alone.  The same test and replacement appear inline in
UpdateStringSectionInPlace (lines 199-208) and in
PatchFilenamesAndInvalidate (lines 116-127). -/
def patchString (oldP newP value : List Nat) : Bool × List Nat :=
  if oldP.length ≤ value.length ∧ value.take oldP.length = oldP then
    (true, newP ++ value.drop oldP.length)
  else (false, value)

/-- A string table buffer assembled from its entries: each entry followed
by its NUL terminator, concatenated in order.  ReadSectionData with one
trailing zero byte guarantees the __debug_str buffer has this shape. -/
def flattenTable (entries : List (List Nat)) : List Nat :=
  (entries.map (fun e => e ++ [0])).flatten

/-- The byte offset at which entry i of a string table starts: the sum of
the preceding entry lengths, each with its NUL terminator. -/
def tableOffset (entries : List (List Nat)) (i : Nat) : Nat :=
  ((entries.take i).map (fun e => e.length + 1)).sum

/-- The C string found at byte offset k of a buffer: the bytes from k up to
the first NUL. -/
def stringAt (buf : List Nat) (k : Nat) : List Nat :=
  (buf.drop k).takeWhile (fun b => b ≠ 0)

/-- DWARFStringPatcher::UpdateStringSectionInPlace (dwarf_string_patcher.cc,
lines 179-212).  The cursor walks the buffer one C string at a time,
advancing by the original entry length plus one.  A matched entry is
rewritten inside its original slot: the new prefix is copied over the old,
the suffix is moved down, and a NUL is stored after it; bytes of the slot
past that NUL keep their previous values.  The returned flag is
data_was_modified.  The call site (Patch, line 126) only reaches this
routine when the new prefix is not longer than the old one, which keeps
every rewritten entry inside its slot. -/
def updateStringSectionInPlace (oldP newP : List Nat) (buf : List Nat) :
    List Nat × Bool :=
  if hb : buf = [] then ([], false)
  else
    let entry := buf.takeWhile (fun b => b ≠ 0)
    let slotLen := entry.length + 1
    let res := updateStringSectionInPlace oldP newP (buf.drop slotLen)
    if oldP.length ≤ entry.length ∧ entry.take oldP.length = oldP then
      let newEntry := newP ++ entry.drop oldP.length
      (newEntry ++ [0] ++ (buf.take slotLen).drop (newEntry.length + 1) ++ res.1,
        true)
    else (buf.take slotLen ++ res.1, res.2)
  termination_by buf.length
  decreasing_by
    simp only [List.length_drop]
    have : 0 < buf.length := List.length_pos.mpr hb
    omega

/-- The bytes occupying one entry slot after UpdateStringSectionInPlace
has processed it: a matched entry is replaced by its patched form, its NUL,
and whatever bytes of the original slot lie past the new NUL; an unmatched
entry keeps its slot.  This names the per-entry effect of lines 199-210 of
dwarf_string_patcher.cc for the structural description of the output
table of the routine. -/
def inPlaceSlot (oldP newP e : List Nat) : List Nat :=
  if oldP.length ≤ e.length ∧ e.take oldP.length = oldP then
    (newP ++ e.drop oldP.length) ++ [0] ++
      (e ++ [0]).drop ((newP ++ e.drop oldP.length).length + 1)
  else e ++ [0]

/-- DWARFStringPatcher::RewriteStringSection (dwarf_string_patcher.cc,
lines 214-267).  The buffer is walked one C string at a time; each entry is
patched, pushed onto the new table, and the pair of its original offset and
its offset in the new table is recorded in the relocation table.  Returns
the relocation table (in offset order, as the std::map iterates), the entries of the new
table, and the data_was_modified flag. -/
def rewriteStringSection (oldP newP : List Nat) (buf : List Nat)
    (origOffset newOffset : Nat) :
    List (Nat × Nat) × List (List Nat) × Bool :=
  if hb : buf = [] then ([], [], false)
  else
    let entry := buf.takeWhile (fun b => b ≠ 0)
    let lenPlusOne := entry.length + 1
    let p := patchString oldP newP entry
    let res := rewriteStringSection oldP newP (buf.drop lenPlusOne)
      (origOffset + lenPlusOne) (newOffset + p.2.length + 1)
    ((origOffset, newOffset) :: res.1, p.2 :: res.2.1, p.1 || res.2.2)
  termination_by buf.length
  decreasing_by
    simp only [List.length_drop]
    have : 0 < buf.length := List.length_pos.mpr hb
    omega

/-- The byte length of a __debug_line directory table holding the given
directories: each entry with its NUL terminator, plus the final empty
string that terminates the table.  ProcessLineInfoData computes the same
quantities incrementally (string_table_length from the reader positions on
lines 664-665, new_string_table_length on lines 640-660). -/
def dirTableLength (dirs : List (List Nat)) : Nat :=
  (dirs.map (fun d => d.length + 1)).sum + 1

/-- The directory-table sizing step of
DWARFStringPatcher::ProcessLineInfoData (dwarf_string_patcher.cc, lines
638-706), applied to the parsed directory entries of one compilation unit.
Every entry is prefix-patched; when nothing matched the table is untouched.
Otherwise, if the patched table is exactly one byte shorter than the
original, a one-byte directory of a single 0x21 byte is appended and the
recorded length grows by two; if it is at least two bytes shorter, one
padding directory of 0x21 bytes sized to the difference minus its NUL
terminator is appended and the recorded length equals the original.
Returns the new directory list, the new table length
(new_string_table_length), and the data_was_modified flag. -/
def processDirTable (oldP newP : List Nat) (dirs : List (List Nat)) :
    List (List Nat) × Nat × Bool :=
  let patched := dirs.map (fun d => patchString oldP newP d)
  let modified := patched.any (fun p => p.1)
  let table := patched.map (fun p => p.2)
  let newLen := dirTableLength table
  let origLen := dirTableLength dirs
  if !modified then (table, newLen, false)
  else if newLen = origLen - 1 then (table ++ [[33]], newLen + 2, true)
  else if newLen < origLen then
    (table ++ [List.replicate (origLen - newLen - 1) 33], origLen, true)
  else (table, newLen, true)

/-- ReadByte at an absolute buffer offset; returns the byte and the new
read position. -/
def readByteAt (buf : List Nat) (pos : Nat) : Option (Nat × Nat) :=
  match readByte (buf.drop pos) with
  | none => none
  | some (b, _) => some (b, pos + 1)

/-- ReadWORD at an absolute buffer offset. -/
def readWORDAt (swap : Bool) (buf : List Nat) (pos : Nat) :
    Option (Nat × Nat) :=
  match readWORD swap (buf.drop pos) with
  | none => none
  | some (v, _) => some (v, pos + 2)

/-- ReadDWORD at an absolute buffer offset. -/
def readDWORDAt (swap : Bool) (buf : List Nat) (pos : Nat) :
    Option (Nat × Nat) :=
  match readDWORD swap (buf.drop pos) with
  | none => none
  | some (v, _) => some (v, pos + 4)

/-- ReadQWORD at an absolute buffer offset. -/
def readQWORDAt (swap : Bool) (buf : List Nat) (pos : Nat) :
    Option (Nat × Nat) :=
  match readQWORD swap (buf.drop pos) with
  | none => none
  | some (v, _) => some (v, pos + 8)

/-- ReadULEB128 at an absolute buffer offset. -/
def readULEB128At (buf : List Nat) (pos : Nat) : Option (Nat × Nat) :=
  match readULEB128 (buf.drop pos) 0 0 with
  | none => none
  | some (v, rest) => some (v, pos + ((buf.drop pos).length - rest.length))

/-- Modelled from the spec: DWARFBufferReader::ReadASCIIZ is declared in
dwarf_buffer_reader.h but its definition is not among the sources; per the
spec (§4.1, readCString) it reads the NUL-terminated string at the cursor
(empty when a NUL sits at the current position) and fails when the buffer
ends before a terminator. -/
def readASCIIZAt (buf : List Nat) (pos : Nat) : Option (List Nat × Nat) :=
  let s := stringAt buf pos
  if pos + s.length < buf.length then some (s, pos + s.length + 1) else none

/-- The fields of a LineInfoPatch (dwarf_string_patcher.h) that determine
return codes: the unit length and the old and new directory-table lengths.
The recorded offsets and the new table bytes, used only to rebuild the
section buffer, are not consulted by any modelled return path. -/
structure LineInfoPatchSizes where
  compilationUnitLength : Nat
  stringTableLength : Nat
  newStringTableLength : Nat
  deriving DecidableEq, Repr

/-- The directory-table parse loop of ProcessLineInfoData
(dwarf_string_patcher.cc, lines 641-661): ASCIIZ entries are read until an
empty one terminates the table.  Fueled recursion; every entry consumes at
least one byte, so fuel exceeding the buffer length never runs out. -/
def readDirEntries (buf : List Nat) : Nat → Nat → Option (List (List Nat) × Nat)
  | 0, _ => none
  | fuel + 1, pos =>
      match readASCIIZAt buf pos with
      | none => none
      | some (e, pos2) =>
          if e = [] then some ([], pos2)
          else
            match readDirEntries buf fuel pos2 with
            | some (es, p) => some (e :: es, p)
            | none => none

/-- The compilation-unit loop of DWARFStringPatcher::ProcessLineInfoData
(dwarf_string_patcher.cc, lines 569-711), reduced to the data that decides
return codes: the list of per-unit patch size records.  A unit is parsed
(32-bit length, 0xFFFFFFFF escaping to a 64-bit length, version, header
length, fixed skips, opcode table skip, directory table), its directory
table is resized via processDirTable, and the cursor then seeks to the
end of the unit.  Parse failures yield none (ERR_INVALID_FILE). -/
def processLineUnits (oldP newP : List Nat) (swap : Bool) (buf : List Nat) :
    Nat → Nat → Option (List LineInfoPatchSizes)
  | 0, _ => none
  | fuel + 1, pos =>
      if buf.length ≤ pos then some []
      else
        match readDWORDAt swap buf pos with
        | none => none
        | some (len32, pos1) =>
            let step : Option (Bool × Nat × Nat) :=
              if len32 = 4294967295 then
                match readQWORDAt swap buf pos1 with
                | none => none
                | some (len, pos2) => some (true, len, pos2)
              else some (false, len32, pos1)
            match step with
            | none => none
            | some (is64, unitLen, pos2) =>
                let endOffset := pos2 + unitLen
                match readWORDAt swap buf pos2 with
                | none => none
                | some (version, pos3) =>
                    match (if is64 then readQWORDAt swap buf pos3
                           else readDWORDAt swap buf pos3) with
                    | none => none
                    | some (_, pos4) =>
                        let bytesToSkip := 1 + (if version = 4 then 1 else 0) + 3
                        let pos5 := pos4 + bytesToSkip
                        match readByteAt buf pos5 with
                        | none => none
                        | some (opcodeBase, pos6) =>
                            let pos7 := pos6 + (opcodeBase - 1)
                            match readDirEntries buf (buf.length + 1) pos7 with
                            | none => none
                            | some (dirs, pos8) =>
                                let r := processDirTable oldP newP dirs
                                let rest := processLineUnits oldP newP swap buf
                                  fuel endOffset
                                match rest with
                                | none => none
                                | some patches =>
                                    if r.2.2 then
                                      some (⟨unitLen, pos8 - pos7, r.2.1⟩ ::
                                        patches)
                                    else some patches

/-- DWARFStringPatcher::ApplyLineInfoPatches (dwarf_string_patcher.cc,
lines 734-804), reduced to its return code: a patch whose growth moves the
unit length across the 32-bit boundary fails with ERR_NOT_IMPLEMENTED
(lines 754-761); otherwise the rebuilt, larger section is submitted and
the size-changing write defers (ERR_WRITE_DEFERRED per spec §4.3). -/
def applyLineInfoPatchesRC (patches : List LineInfoPatchSizes) : ReturnCode :=
  if patches.any (fun a =>
      let delta := a.newStringTableLength - a.stringTableLength
      (decide (4294967295 < a.compilationUnitLength)) ≠
        (decide (4294967295 < a.compilationUnitLength + delta)))
  then ReturnCode.notImplemented
  else ReturnCode.writeDeferred

/-- DWARFStringPatcher::PatchLineInfoSection (dwarf_string_patcher.cc,
lines 504-549): a missing __debug_line section is a warning and returns
ERR_OK; otherwise the units are processed, and patches are applied in
place (same-size write, ERR_OK) when nothing grew, else via the rebuild
path. -/
def patchLineInfoSection (oldP newP : List Nat) (swap : Bool)
    (debugLine : Option (List Nat)) : ReturnCode :=
  match debugLine with
  | none => ReturnCode.ok
  | some data =>
      match processLineUnits oldP newP swap data (data.length + 1) 0 with
      | none => ReturnCode.invalidFile
      | some patches =>
          if patches = [] then ReturnCode.ok
          else
            let increase := (patches.map (fun a =>
              a.newStringTableLength - a.stringTableLength)).sum
            if increase = 0 then ReturnCode.ok
            else applyLineInfoPatchesRC patches

/-- DWARFStringPatcher::Abbreviation (dwarf_string_patcher.h): one
abbreviation table entry. -/
structure Abbreviation where
  abbreviationCode : Nat
  tag : Nat
  hasChildren : Bool
  attributes : List (Nat × Nat)
  deriving DecidableEq, Repr

/-- Insertion into a std::map modelled as an association list: the new
binding shadows any previous binding of the same key for List.lookup. -/
def mapInsert {α : Type} (k : Nat) (v : α) (m : List (Nat × α)) :
    List (Nat × α) :=
  (k, v) :: m.filter (fun p => p.1 ≠ k)

/-- The attribute loop of DWARFStringPatcher::ProcessAbbreviation
(dwarf_string_patcher.cc, lines 344-356): (name, form) ULEB128 pairs up to
the (0, 0) terminator. -/
def readAbbrevAttributes (buf : List Nat) : Nat → Nat →
    Option (List (Nat × Nat) × Nat)
  | 0, _ => none
  | fuel + 1, pos =>
      match readULEB128At buf pos with
      | none => none
      | some (name, p1) =>
          match readULEB128At buf p1 with
          | none => none
          | some (form, p2) =>
              if name = 0 ∧ form = 0 then some ([], p2)
              else
                match readAbbrevAttributes buf fuel p2 with
                | some (attrs, p) => some ((name, form) :: attrs, p)
                | none => none

/-- DWARFStringPatcher::ProcessAbbreviation (dwarf_string_patcher.cc, lines
317-359): reads one abbreviation; a bare code of 0 marks the end of a
table (returned as none in the first component). -/
def processAbbreviation (buf : List Nat) (pos : Nat) :
    Option (Option Abbreviation × Nat) :=
  match readULEB128At buf pos with
  | none => none
  | some (code, p1) =>
      if code = 0 then some (none, p1)
      else
        match readULEB128At buf p1 with
        | none => none
        | some (tag, p2) =>
            match readByteAt buf p2 with
            | none => none
            | some (hasChildren, p3) =>
                match readAbbrevAttributes buf (buf.length + 1) p3 with
                | none => none
                | some (attrs, p4) =>
                    some (some ⟨code, tag, hasChildren ≠ 0, attrs⟩, p4)

/-- The table-accumulation loop of
DWARFStringPatcher::ProcessAbbrevSection (dwarf_string_patcher.cc, lines
288-312): abbreviations are read while bytes remain; an end-of-table mark
starts a new table at the current offset, and other abbreviations are
stored under the current table offset keyed by their code. -/
def abbrevSectionLoop (buf : List Nat) :
    Nat → Nat → Nat → List (Nat × List (Nat × Abbreviation)) →
    Option (List (Nat × List (Nat × Abbreviation)))
  | 0, _, _, _ => none
  | fuel + 1, pos, curTableOffset, tableMap =>
      if buf.length ≤ pos then some tableMap
      else
        match processAbbreviation buf pos with
        | none => none
        | some (none, pos2) => abbrevSectionLoop buf fuel pos2 pos2 tableMap
        | some (some a, pos2) =>
            let table := (tableMap.lookup curTableOffset).getD []
            let tableMap2 := mapInsert curTableOffset
              (mapInsert a.abbreviationCode a table) tableMap
            abbrevSectionLoop buf fuel pos2 curTableOffset tableMap2

/-- DWARFStringPatcher::ProcessAbbrevSection (dwarf_string_patcher.cc,
lines 269-315): a missing __debug_abbrev section is a warning and leaves
the table map empty (ERR_OK); a parse failure is ERR_INVALID_FILE
(returned as none). -/
def processAbbrevSectionOpt (debugAbbrev : Option (List Nat)) :
    Option (List (Nat × List (Nat × Abbreviation))) :=
  match debugAbbrev with
  | none => some []
  | some data => abbrevSectionLoop data (data.length + 1) 0 0 []

/-- Little-endian byte decomposition of a value, n bytes wide. -/
def natLEBytes : Nat → Nat → List Nat
  | 0, _ => []
  | n + 1, v => v % 256 :: natLEBytes n (v / 256)

/-- Overwrites bytes.length bytes of buf starting at offset off. -/
def writeBytesAt (buf : List Nat) (off : Nat) (bytes : List Nat) : List Nat :=
  buf.take off ++ bytes ++ buf.drop (off + bytes.length)

/-- The 32-bit write_func of PatchInfoSection (dwarf_string_patcher.cc,
lines 421-430): the value is truncated to uint32 and stored at the given
offset in host (little-endian) order.  Line 425 calls OSSwapInt32 when
byte swapping is requested but discards its result, so the stored bytes
are the unswapped ones either way. -/
def infoWriteFunc32 (swap : Bool) (buf : List Nat) (value off : Nat) :
    List Nat :=
  let actual := value % 4294967296
  let _ := if swap then swap32 actual else actual
  writeBytesAt buf off (natLEBytes 4 actual)

/-- The 64-bit write_func of PatchInfoSection (dwarf_string_patcher.cc,
lines 402-410); the OSSwapInt64 result on line 405 is likewise
discarded. -/
def infoWriteFunc64 (swap : Bool) (buf : List Nat) (value off : Nat) :
    List Nat :=
  let actual := value % 18446744073709551616
  let _ := if swap then swap64 actual else actual
  writeBytesAt buf off (natLEBytes 8 actual)

/-- The write behavior the spec documents for the strp relocation path
(§4.5.3): the new offset is written back "with correct byte-swap". -/
def infoWriteFunc32Spec (swap : Bool) (buf : List Nat) (value off : Nat) :
    List Nat :=
  let actual := value % 4294967296
  writeBytesAt buf off (natLEBytes 4 (if swap then swap32 actual else actual))

/-- The DWARF-64 test applied to the initial 32-bit unit length by
PatchInfoSection (dwarf_string_patcher.cc, line 394): the expression is
`compilation_unit_length_32 & 0x80000000`, a test of the high bit. -/
def infoUnitIs64Bit (len32 : Nat) : Bool := len32 &&& 2147483648 ≠ 0

/-- The unit-length header read of PatchInfoSection (dwarf_string_patcher.cc,
lines 383-431): a 32-bit length is read; when infoUnitIs64Bit accepts it a
following 64-bit length is read and the 64-bit read/write functions are
installed (first component true), otherwise the 32-bit value is the length. -/
def readInfoUnitLength (swap : Bool) (buf : List Nat) (pos : Nat) :
    Option (Bool × Nat × Nat) :=
  match readDWORDAt swap buf pos with
  | none => none
  | some (len32, pos1) =>
      if infoUnitIs64Bit len32 then
        match readQWORDAt swap buf pos1 with
        | none => none
        | some (len, pos2) => some (true, len, pos2)
      else some (false, len32, pos1)

/-- PatchfoAttributeValue (dwarf_string_patcher.cc, lines 823-978): consume
one attribute value according to its form; only DW_FORM_strp may modify the
buffer, replacing a relocated offset in place when the mapped offset
differs.  An offset absent from the relocation table is ERR_INVALID_FILE;
an unknown form is ERR_NOT_IMPLEMENTED.  The fuel bounds the
DW_FORM_indirect recursion, which consumes at least one buffer byte per
step. -/
def patchfoAttributeValue (swap is64 : Bool) (relocs : List (Nat × Nat))
    (addressSize dwarfVersion : Nat) :
    Nat → Nat → List Nat → Nat → Except ReturnCode (List Nat × Nat × Bool)
  | 0, _, _, _ => Except.error ReturnCode.invalidFile
  | fuel + 1, form, buf, pos =>
      let readFunc := if is64 then readQWORDAt swap buf else readDWORDAt swap buf
      if form = 0x01 then Except.ok (buf, pos + addressSize, false)
      else if form = 0x03 then
        match readWORDAt swap buf pos with
        | none => Except.error ReturnCode.invalidFile
        | some (len, p) => Except.ok (buf, p + len, false)
      else if form = 0x04 then
        match readDWORDAt swap buf pos with
        | none => Except.error ReturnCode.invalidFile
        | some (len, p) => Except.ok (buf, p + len, false)
      else if form = 0x0b ∨ form = 0x11 ∨ form = 0x0c then
        Except.ok (buf, pos + 1, false)
      else if form = 0x05 ∨ form = 0x12 then Except.ok (buf, pos + 2, false)
      else if form = 0x06 ∨ form = 0x13 then Except.ok (buf, pos + 4, false)
      else if form = 0x07 ∨ form = 0x14 then Except.ok (buf, pos + 8, false)
      else if form = 0x08 then
        match readASCIIZAt buf pos with
        | none => Except.error ReturnCode.invalidFile
        | some (_, p) => Except.ok (buf, p, false)
      else if form = 0x09 then
        match readULEB128At buf pos with
        | none => Except.error ReturnCode.invalidFile
        | some (len, p) => Except.ok (buf, p + len, false)
      else if form = 0x0a then
        match readByteAt buf pos with
        | none => Except.error ReturnCode.invalidFile
        | some (len, p) => Except.ok (buf, p + len, false)
      else if form = 0x0d then
        match readULEB128At buf pos with
        | none => Except.error ReturnCode.invalidFile
        | some (_, p) => Except.ok (buf, p, false)
      else if form = 0x0e then
        match readFunc pos with
        | none => Except.error ReturnCode.invalidFile
        | some (stringOffset, p) =>
            match relocs.lookup stringOffset with
            | none => Except.error ReturnCode.invalidFile
            | some newOffset =>
                if newOffset ≠ stringOffset then
                  let buf2 := if is64 then infoWriteFunc64 swap buf newOffset pos
                    else infoWriteFunc32 swap buf newOffset pos
                  Except.ok (buf2, p, true)
                else Except.ok (buf, p, false)
      else if form = 0x0f ∨ form = 0x15 then
        match readULEB128At buf pos with
        | none => Except.error ReturnCode.invalidFile
        | some (_, p) => Except.ok (buf, p, false)
      else if form = 0x10 then
        if dwarfVersion ≤ 2 then Except.ok (buf, pos + addressSize, false)
        else
          match readFunc pos with
          | none => Except.error ReturnCode.invalidFile
          | some (_, p) => Except.ok (buf, p, false)
      else if form = 0x16 then
        match readULEB128At buf pos with
        | none => Except.error ReturnCode.invalidFile
        | some (realEncoding, p) =>
            patchfoAttributeValue swap is64 relocs addressSize dwarfVersion
              fuel realEncoding buf p
      else Except.error ReturnCode.notImplemented

/-- The attribute iteration of PatchInfoSection (dwarf_string_patcher.cc,
lines 478-490): each attribute of the abbreviation is consumed in order,
accumulating the data_was_modified flag. -/
def walkInfoAttrs (swap is64 : Bool) (relocs : List (Nat × Nat))
    (addressSize dwarfVersion : Nat) :
    List (Nat × Nat) → List Nat → Nat → Bool →
    Except ReturnCode (List Nat × Nat × Bool)
  | [], buf, pos, modified => Except.ok (buf, pos, modified)
  | (_, form) :: attrs, buf, pos, modified =>
      match patchfoAttributeValue swap is64 relocs addressSize dwarfVersion
        (buf.length + 1) form buf pos with
      | Except.error rc => Except.error rc
      | Except.ok (buf2, pos2, m) =>
          walkInfoAttrs swap is64 relocs addressSize dwarfVersion attrs buf2
            pos2 (modified || m)

/-- The DIE loop of PatchInfoSection (dwarf_string_patcher.cc, lines
461-491): while the cursor is before the unit end, an abbreviation code is
read (0 is null padding and skipped), looked up in the table of the unit
(ERR_INVALID_FILE when absent), and its attributes are walked. -/
def walkInfoDIEs (swap is64 : Bool) (relocs : List (Nat × Nat))
    (table : List (Nat × Abbreviation)) (addressSize dwarfVersion unitEnd : Nat) :
    Nat → List Nat → Nat → Bool → Except ReturnCode (List Nat × Nat × Bool)
  | 0, _, _, _ => Except.error ReturnCode.invalidFile
  | fuel + 1, buf, pos, modified =>
      if unitEnd ≤ pos then Except.ok (buf, pos, modified)
      else
        match readULEB128At buf pos with
        | none => Except.error ReturnCode.invalidFile
        | some (abbrevCode, pos2) =>
            if abbrevCode = 0 then
              walkInfoDIEs swap is64 relocs table addressSize dwarfVersion
                unitEnd fuel buf pos2 modified
            else
              match table.lookup abbrevCode with
              | none => Except.error ReturnCode.invalidFile
              | some abbreviation =>
                  match walkInfoAttrs swap is64 relocs addressSize
                    dwarfVersion abbreviation.attributes buf pos2 modified with
                  | Except.error rc => Except.error rc
                  | Except.ok (buf2, pos3, m) =>
                      walkInfoDIEs swap is64 relocs table addressSize
                        dwarfVersion unitEnd fuel buf2 pos3 m

/-- The compilation-unit loop of PatchInfoSection (dwarf_string_patcher.cc,
lines 383-492): per unit, read the length header (readInfoUnitLength),
the version, the abbreviation table offset (by DWARF size), and the
address size; resolve the abbreviation table (ERR_INVALID_FILE when the
offset is unknown) and walk the DIEs of the unit. -/
def walkInfoUnits (swap : Bool) (relocs : List (Nat × Nat))
    (tableMap : List (Nat × List (Nat × Abbreviation))) :
    Nat → List Nat → Nat → Bool → Except ReturnCode (List Nat × Bool)
  | 0, _, _, _ => Except.error ReturnCode.invalidFile
  | fuel + 1, buf, pos, modified =>
      if buf.length ≤ pos then Except.ok (buf, modified)
      else
        match readInfoUnitLength swap buf pos with
        | none => Except.error ReturnCode.invalidFile
        | some (is64, unitLen, pos2) =>
            let unitEnd := pos2 + unitLen
            match readWORDAt swap buf pos2 with
            | none => Except.error ReturnCode.invalidFile
            | some (dwarfVersion, pos3) =>
                match (if is64 then readQWORDAt swap buf pos3
                       else readDWORDAt swap buf pos3) with
                | none => Except.error ReturnCode.invalidFile
                | some (abbrevOffset, pos4) =>
                    match readByteAt buf pos4 with
                    | none => Except.error ReturnCode.invalidFile
                    | some (addressSize, pos5) =>
                        match tableMap.lookup abbrevOffset with
                        | none => Except.error ReturnCode.invalidFile
                        | some table =>
                            match walkInfoDIEs swap is64 relocs table
                              addressSize dwarfVersion unitEnd (buf.length + 1)
                              buf pos5 modified with
                            | Except.error rc => Except.error rc
                            | Except.ok (buf2, pos6, m) =>
                                walkInfoUnits swap relocs tableMap fuel buf2
                                  pos6 m

/-- DWARFStringPatcher::PatchInfoSection (dwarf_string_patcher.cc, lines
361-502).  A missing __debug_info section is ERR_INVALID_FILE (lines
373-376) — unlike the warning paths of the other sections.  Otherwise the
units are walked and, when anything changed, the same-size section is
written back (ERR_OK). -/
def patchInfoSection (swap : Bool) (relocs : List (Nat × Nat))
    (tableMap : List (Nat × List (Nat × Abbreviation)))
    (debugInfo : Option (List Nat)) : ReturnCode :=
  match debugInfo with
  | none => ReturnCode.invalidFile
  | some data =>
      match walkInfoUnits swap relocs tableMap (data.length + 1) data 0 false with
      | Except.error rc => rc
      | Except.ok _ => ReturnCode.ok

/-- The DWARF sections of one slice, each possibly absent, together with
the byte-swap flag of the slice. -/
structure DwarfFile where
  debugLine : Option (List Nat)
  debugStr : Option (List Nat)
  debugAbbrev : Option (List Nat)
  debugInfo : Option (List Nat)
  swap : Bool

/-- DWARFStringPatcher::Patch (dwarf_string_patcher.cc, lines 97-177): the
line section is patched first and its failures propagate; a missing
__debug_str is a warning (ERR_OK); a new prefix no longer than the old one
updates the string table in place (same-size write, ERR_OK) and never
touches __debug_info; otherwise the table is rewritten and, when modified,
submitted as a deferred size-changing write (treated as success), after
which the abbreviation tables are read and __debug_info is patched.
the one trailing zero byte of ReadSectionData (lines 113-117) is modelled by
appending a NUL to the section bytes; WriteSectionData follows the spec
(§4.3): same-size writes return ERR_OK, size-changing ones
ERR_WRITE_DEFERRED. -/
def dwarfPatcherPatch (oldP newP : List Nat) (f : DwarfFile) : ReturnCode :=
  let lineRC := patchLineInfoSection oldP newP f.swap f.debugLine
  if lineRC ≠ ReturnCode.ok then lineRC
  else
    match f.debugStr with
    | none => ReturnCode.ok
    | some strData =>
        let data := strData ++ [0]
        if newP.length ≤ oldP.length then
          let r := updateStringSectionInPlace oldP newP data
          if r.2 then ReturnCode.ok else ReturnCode.ok
        else
          let r := rewriteStringSection oldP newP data 0 0
          if !r.2.2 then ReturnCode.ok
          else
            match processAbbrevSectionOpt f.debugAbbrev with
            | none => ReturnCode.invalidFile
            | some tableMap => patchInfoSection f.swap r.1 tableMap f.debugInfo

/-- CovmapSection::ReadFunctionRecords (covmap_section.cc, lines 286-304):
count records of a u64, two u32s, and a u64 are consumed. -/
def readFunctionRecordsV1 (swap : Bool) (buf : List Nat) :
    Nat → Nat → Option Nat
  | 0, pos => some pos
  | n + 1, pos =>
      match readQWORDAt swap buf pos with
      | none => none
      | some (_, p1) =>
          match readDWORDAt swap buf p1 with
          | none => none
          | some (_, p2) =>
              match readDWORDAt swap buf p2 with
              | none => none
              | some (_, p3) =>
                  match readQWORDAt swap buf p3 with
                  | none => none
                  | some (_, p4) => readFunctionRecordsV1 swap buf n p4

/-- CovmapSection::ReadV2FunctionRecords (covmap_section.cc, lines
306-322): count records of a u64, a u32, and a u64 are consumed. -/
def readFunctionRecordsV2 (swap : Bool) (buf : List Nat) :
    Nat → Nat → Option Nat
  | 0, pos => some pos
  | n + 1, pos =>
      match readQWORDAt swap buf pos with
      | none => none
      | some (_, p1) =>
          match readDWORDAt swap buf p1 with
          | none => none
          | some (_, p2) =>
              match readQWORDAt swap buf p2 with
              | none => none
              | some (_, p3) => readFunctionRecordsV2 swap buf n p3

/-- The filename loop of CovmapSection::ReadFilenameGroup
(covmap_section.cc, lines 255-281): each filename is a ULEB128 length
followed by that many bytes. -/
def readGroupFilenames (buf : List Nat) :
    Nat → Nat → Option (List (List Nat) × Nat)
  | 0, pos => some ([], pos)
  | n + 1, pos =>
      match readULEB128At buf pos with
      | none => none
      | some (len, p1) =>
          if p1 + len ≤ buf.length then
            match readGroupFilenames buf n (p1 + len) with
            | none => none
            | some (fs, p) => some ((buf.drop p1).take len :: fs, p)
          else none

/-- CovmapSection::ReadFilenameGroup (covmap_section.cc, lines 243-284):
a ULEB128 filename count followed by the filenames; the size of the group is
the number of bytes consumed. -/
def readFilenameGroup (buf : List Nat) (pos : Nat) :
    Option (FilenameGroup × Nat) :=
  match readULEB128At buf pos with
  | none => none
  | some (numFilenames, p1) =>
      match readGroupFilenames buf numFilenames p1 with
      | none => none
      | some (fs, p2) => some (⟨p2 - pos, fs⟩, p2)

/-- CovmapSection::ReadCoverageMapping (covmap_section.cc, lines 173-241):
the four-word header is read, the function records are consumed per the
version (any version other than 1 or 2 fails), the filename group is read,
and the cursor seeks past the filename and coverage data, aligning to the
next 8-byte boundary when more mappings follow.  Failure collapses the
ERR_INVALID_FILE / ERR_READ_FAILED distinction into none. -/
def readCoverageMapping (swap : Bool) (buf : List Nat) (pos : Nat) :
    Option (FilenameGroup × Nat × Bool) :=
  match readDWORDAt swap buf pos with
  | none => none
  | some (functionRecordsSize, p1) =>
      match readDWORDAt swap buf p1 with
      | none => none
      | some (filenamesSize, p2) =>
          match readDWORDAt swap buf p2 with
          | none => none
          | some (coverageSize, p3) =>
              match readDWORDAt swap buf p3 with
              | none => none
              | some (versionMinus1, p4) =>
                  let recordsEnd : Option Nat :=
                    if versionMinus1 + 1 = 1 then
                      readFunctionRecordsV1 swap buf functionRecordsSize p4
                    else if versionMinus1 + 1 = 2 then
                      readFunctionRecordsV2 swap buf functionRecordsSize p4
                    else none
                  match recordsEnd with
                  | none => none
                  | some dataStart =>
                      match readFilenameGroup buf dataStart with
                      | none => none
                      | some (g, _) =>
                          let dataEnd := dataStart + filenamesSize +
                            coverageSize
                          if buf.length < dataEnd then none
                          else if buf.length ≤ dataEnd then
                            some (g, dataEnd, false)
                          else
                            let misalign := dataEnd % 8
                            let p := if misalign ≠ 0 then
                              dataEnd + (8 - misalign) else dataEnd
                            some (g, p, true)

/-- The mapping loop of CovmapSection::Parse (covmap_section.cc, lines
62-87): coverage mappings are read while has_more holds, and afterwards
the cursor must sit exactly at the section end. -/
def covmapParseLoop (swap : Bool) (buf : List Nat) :
    Nat → Nat → Option (List FilenameGroup)
  | 0, _ => none
  | fuel + 1, pos =>
      match readCoverageMapping swap buf pos with
      | none => none
      | some (g, pos2, hasMore) =>
          if hasMore then
            match covmapParseLoop swap buf fuel pos2 with
            | none => none
            | some gs => some (g :: gs)
          else if pos2 < buf.length then none
          else some [g]

/-- CovmapSection::Parse over a whole section buffer. -/
def covmapParse (swap : Bool) (buf : List Nat) : Option (List FilenameGroup) :=
  covmapParseLoop swap buf (buf.length + 1) 0

/-- The group loop of CovmapSection::PatchFilenamesAndInvalidate
(covmap_section.cc, lines 111-147), at the level of the parsed groups:
the filenames of each group are prefix-patched; a group with any match is
re-serialized with its original size as the minimum (a serialization
failure aborts with none, the nullptr return), and writing in place
remains possible only while the bytes of every replacement group match the
original size.  Returns (data_was_modified, may_write_in_place). -/
def patchCovmapGroupsLoop (oldP newP : List Nat) :
    List FilenameGroup → Option (Bool × Bool)
  | [] => some (false, true)
  | g :: gs =>
      let patched := g.filenames.map (fun f => patchString oldP newP f)
      let needsRewrite := patched.any (fun p => p.1)
      match patchCovmapGroupsLoop oldP newP gs with
      | none => none
      | some (modified, inPlace) =>
          if !needsRewrite then some (modified, inPlace)
          else
            let newFilenames := patched.map (fun p => p.2)
            match serialize ⟨calculateSize newFilenames, newFilenames⟩
              g.size with
            | none => none
            | some out =>
                some (true, inPlace && decide (out.length = g.size))

/-- CovmapSection::PatchFilenamesAndInvalidate (covmap_section.cc, lines
89-171) reduced to its outcome: none models the nullptr return (a
serialization failure, or a size-changed group, lines 168-170); otherwise
the returned flag is data_was_modified and the same-size replacements were
copied over the original groups. -/
def patchFilenamesAndInvalidate (oldP newP : List Nat)
    (groups : List FilenameGroup) : Option Bool :=
  match patchCovmapGroupsLoop oldP newP groups with
  | none => none
  | some (modified, inPlace) =>
      if !modified then some false
      else if inPlace then some true
      else none

/-- CovmapPatcher::Patch (covmap_patcher.cc, lines 22-66): a missing
__llvm_covmap section is a warning and returns ERR_OK; a parse failure or
a nullptr from PatchFilenamesAndInvalidate is ERR_INVALID_FILE; otherwise
the (same-size) section write succeeds. -/
def covmapPatcherPatch (oldP newP : List Nat) (swap : Bool)
    (covmap : Option (List Nat)) : ReturnCode :=
  match covmap with
  | none => ReturnCode.ok
  | some data =>
      match covmapParse swap data with
      | none => ReturnCode.invalidFile
      | some groups =>
          match patchFilenamesAndInvalidate oldP newP groups with
          | none => ReturnCode.invalidFile
          | some _ => ReturnCode.ok

theorem encodeLEB128_lt (v : Nat) (h : v < 128) : encodeLEB128 v = [v] := by
  rw [encodeLEB128]
  simp [Nat.div_eq_of_lt h, Nat.mod_eq_of_lt h]

theorem encodedLEB128Size_lt (v : Nat) (h : v < 128) :
    encodedLEB128Size v = 1 := by
  rw [encodedLEB128Size]
  simp [h]

theorem decodeULEB_encode (v : Nat) :
    ∀ t, decodeULEB (encodeLEB128 v ++ t) = some (v, t) := by
  induction v using Nat.strong_induction_on with
  | _ v ih =>
    intro t
    rw [encodeLEB128]
    by_cases h : v / 128 = 0
    · have hv : v < 128 := by omega
      simp [h, decodeULEB, Nat.mod_eq_of_lt hv, hv]
    · have hlt : v / 128 < v := Nat.div_lt_self (by omega) (by omega)
      simp only [h, if_false, List.cons_append, decodeULEB]
      rw [if_neg (by omega)]
      rw [ih (v / 128) hlt t]
      simp only [Nat.add_mod_left]
      simp [Nat.mod_add_div v 128]

theorem takeWhile_entry (e t : List Nat) (he : (0 : Nat) ∉ e) :
    (e ++ 0 :: t).takeWhile (fun b => b ≠ 0) = e := by
  induction e with
  | nil => simp
  | cons a e ih =>
      have ha : a ≠ 0 := by
        intro h
        exact he (by simp [h])
      have ih2 := ih (fun h => he (List.mem_cons_of_mem _ h))
      rw [List.cons_append, List.takeWhile_cons, if_pos (by simp [ha]), ih2]

theorem flattenTable_cons (e : List Nat) (es : List (List Nat)) :
    flattenTable (e :: es) = e ++ 0 :: flattenTable es := by
  simp [flattenTable]

theorem entry_append_eq (e t : List Nat) : e ++ 0 :: t = (e ++ [0]) ++ t := by
  simp

theorem drop_entry (e t : List Nat) : (e ++ 0 :: t).drop (e.length + 1) = t := by
  rw [entry_append_eq]
  have hl : (e ++ [0]).length = e.length + 1 := by simp
  rw [← hl, List.drop_left]

theorem take_entry (e t : List Nat) :
    (e ++ 0 :: t).take (e.length + 1) = e ++ [0] := by
  rw [entry_append_eq]
  have hl : (e ++ [0]).length = e.length + 1 := by simp
  rw [← hl, List.take_left]

theorem updateInPlace_flatten (oldP newP : List Nat) :
    ∀ (es : List (List Nat)), (∀ e ∈ es, (0 : Nat) ∉ e) →
    updateStringSectionInPlace oldP newP (flattenTable es) =
      ((es.map (inPlaceSlot oldP newP)).flatten,
        es.any (fun e =>
          decide (oldP.length ≤ e.length ∧ e.take oldP.length = oldP))) := by
  intro es
  induction es with
  | nil =>
      intro _
      rw [updateStringSectionInPlace]
      simp [flattenTable]
  | cons e es ih =>
      intro hes
      have he : (0 : Nat) ∉ e := hes e (by simp)
      have hes2 : ∀ x ∈ es, (0 : Nat) ∉ x := fun x hx => hes x (by simp [hx])
      rw [flattenTable_cons, updateStringSectionInPlace]
      have hne : e ++ 0 :: flattenTable es ≠ [] := by simp
      rw [dif_neg hne]
      simp only [takeWhile_entry e (flattenTable es) he, drop_entry, take_entry]
      rw [ih hes2]
      by_cases hc : oldP.length ≤ e.length ∧ e.take oldP.length = oldP
      · simp [hc, inPlaceSlot]
      · simp [hc, inPlaceSlot]

theorem inPlaceSlot_length (oldP newP e : List Nat)
    (hlen : newP.length ≤ oldP.length) :
    (inPlaceSlot oldP newP e).length = e.length + 1 := by
  unfold inPlaceSlot
  by_cases hc : oldP.length ≤ e.length ∧ e.take oldP.length = oldP
  · simp only [hc, if_true, List.length_append, List.length_drop]
    simp
    omega
  · simp [hc]

theorem inPlaceSlot_head (oldP newP e : List Nat) :
    ∃ junk, inPlaceSlot oldP newP e =
      (patchString oldP newP e).2 ++ 0 :: junk := by
  unfold inPlaceSlot patchString
  by_cases hc : oldP.length ≤ e.length ∧ e.take oldP.length = oldP
  · refine ⟨(e ++ [0]).drop ((newP ++ e.drop oldP.length).length + 1), ?_⟩
    simp [hc]
  · exact ⟨[], by simp [hc]⟩

theorem patchString_noNul (oldP newP e : List Nat) (he : (0 : Nat) ∉ e)
    (hnew : (0 : Nat) ∉ newP) : (0 : Nat) ∉ (patchString oldP newP e).2 := by
  unfold patchString
  by_cases hc : oldP.length ≤ e.length ∧ e.take oldP.length = oldP
  · simp only [hc, if_true]
    intro hmem
    rcases List.mem_append.mp hmem with h | h
    · exact hnew h
    · exact he (List.mem_of_mem_drop h)
  · simpa [hc] using he

theorem tableOffset_zero (es : List (List Nat)) : tableOffset es 0 = 0 := by
  simp [tableOffset]

theorem tableOffset_succ (e : List Nat) (es : List (List Nat)) (i : Nat) :
    tableOffset (e :: es) (i + 1) = e.length + 1 + tableOffset es i := by
  simp [tableOffset, Nat.add_comm]

theorem stringAt_slots (oldP newP : List Nat)
    (hlen : newP.length ≤ oldP.length) (hnew : (0 : Nat) ∉ newP) :
    ∀ (es : List (List Nat)), (∀ e ∈ es, (0 : Nat) ∉ e) →
    ∀ i, ∀ h : i < es.length,
    stringAt ((es.map (inPlaceSlot oldP newP)).flatten) (tableOffset es i) =
      (patchString oldP newP (es.get ⟨i, h⟩)).2 := by
  intro es
  induction es with
  | nil =>
      intro _ i h
      exact absurd h (by simp)
  | cons e es ih =>
      intro hes i h
      have he : (0 : Nat) ∉ e := hes e (by simp)
      have hes2 : ∀ x ∈ es, (0 : Nat) ∉ x := fun x hx => hes x (by simp [hx])
      match i with
      | 0 =>
          rw [tableOffset_zero]
          obtain ⟨junk, hslot⟩ := inPlaceSlot_head oldP newP e
          simp only [List.map_cons, List.flatten_cons, hslot, stringAt,
            List.drop_zero, List.append_assoc, List.cons_append]
          rw [takeWhile_entry _ _ (patchString_noNul oldP newP e he hnew)]
          rfl
      | i + 1 =>
          rw [tableOffset_succ]
          simp only [List.map_cons, List.flatten_cons, stringAt]
          rw [show e.length + 1 = (inPlaceSlot oldP newP e).length from
            (inPlaceSlot_length oldP newP e hlen).symm]
          rw [List.drop_append]
          exact ih hes2 i (by simpa using h)

theorem flatten_slots_length (oldP newP : List Nat)
    (hlen : newP.length ≤ oldP.length) :
    ∀ es : List (List Nat),
    ((es.map (inPlaceSlot oldP newP)).flatten).length =
      (flattenTable es).length := by
  intro es
  induction es with
  | nil => rfl
  | cons e es ih =>
      simp only [List.map_cons, List.flatten_cons, flattenTable_cons,
        List.length_append, ih, inPlaceSlot_length oldP newP e hlen]
      simp
      omega

/-- C9: when the new prefix is not longer than the old one, the in-place
__debug_str update preserves the byte length of the section and the starting offset of every entry: the C string read at the original offset of an entry in the
updated buffer is exactly the prefix-patched form of that entry.  Consequently
no strp reference needs relocation, and DWARFStringPatcher::Patch returns
from this branch without walking __debug_info: the patch reports ERR_OK
even when the __debug_info section is entirely absent (whose absence is a
hard error on the growing-rewrite path). -/
theorem inplace_update_preserves_layout (oldP newP : List Nat)
    (entries : List (List Nat)) (hlen : newP.length ≤ oldP.length)
    (hents : ∀ e ∈ entries, (0 : Nat) ∉ e) (hnew : (0 : Nat) ∉ newP) :
    (updateStringSectionInPlace oldP newP (flattenTable entries)).1.length =
      (flattenTable entries).length ∧
    (∀ i, ∀ h : i < entries.length,
      stringAt (updateStringSectionInPlace oldP newP (flattenTable entries)).1
        (tableOffset entries i) =
        (patchString oldP newP (entries.get ⟨i, h⟩)).2) ∧
    (∀ (dbgAbbrev dbgInfo : Option (List Nat)) (sw : Bool)
      (strData : List Nat),
      dwarfPatcherPatch oldP newP
        { debugLine := none, debugStr := some strData,
          debugAbbrev := dbgAbbrev, debugInfo := dbgInfo, swap := sw } =
        ReturnCode.ok) := by
  rw [updateInPlace_flatten oldP newP entries hents]
  refine ⟨flatten_slots_length oldP newP hlen entries, ?_, ?_⟩
  · intro i h
    exact stringAt_slots oldP newP hlen hnew entries hents i h
  · intro dbgAbbrev dbgInfo sw strData
    simp [dwarfPatcherPatch, patchLineInfoSection, hlen]

theorem inplace_update_preserves_layout_witness :
    (updateStringSectionInPlace [97] [98] (flattenTable [[97, 99]])).1.length =
      (flattenTable [[97, 99]]).length ∧
    stringAt (updateStringSectionInPlace [97] [98] (flattenTable [[97, 99]])).1
      (tableOffset [[97, 99]] 0) = (patchString [97] [98] [97, 99]).2 ∧
    dwarfPatcherPatch [97] [98]
      { debugLine := none, debugStr := some [97, 99], debugAbbrev := none,
        debugInfo := none, swap := false } = ReturnCode.ok := by
  have h := inplace_update_preserves_layout [97] [98] [[97, 99]] (by decide)
    (by decide) (by decide)
  exact ⟨h.1, h.2.1 0 (by decide), h.2.2 none none false [97, 99]⟩

/-- C7 counterexample: the claim says a patcher run with oldPrefix equal to
newPrefix never issues a section write with the data-was-modified flag
set.  But both UpdateStringSectionInPlace (line 202 of
dwarf_string_patcher.cc) and PatchFilenamesAndInvalidate (line 126 of
covmap_section.cc) raise the flag whenever a string merely starts with the
prefix, before comparing old and new content: with prefix "a" mapped to
"a", a table containing "ab" and a covmap group containing "a" both come
back flagged as modified, so the flag-guarded writes are issued. -/
theorem noop_prefix_sets_modified_flag :
    (updateStringSectionInPlace [97] [97] (flattenTable [[97, 98]])).2 =
      true ∧
    patchFilenamesAndInvalidate [97] [97] [{ size := 3, filenames := [[97]] }] =
      some true := by
  constructor
  · rw [updateInPlace_flatten [97] [97] [[97, 98]] (by decide)]
    decide
  · have hc : calculateSize [[97]] = 3 := by
      simp [calculateSize, encodedLEB128Size_lt]
    have hs : serialize { size := 3, filenames := [[97]] } 3 =
        some [1, 1, 97] := by
      rw [serialize]
      norm_num [encodeLEB128_lt, encodedLEB128Size_lt]
    simp [patchFilenamesAndInvalidate, patchCovmapGroupsLoop, patchString,
      hc, hs]

/-- C7 amended: replacing a prefix by itself is the identity on every
string (patchString with oldPrefix equal to newPrefix returns its input
unchanged), and the in-place __debug_str update under such a no-op map
leaves every byte of the table unchanged — but its data-was-modified flag
comes back true exactly when some entry starts with the prefix, in which
case the flag-guarded same-size section write is issued carrying
byte-identical data.  The covmap patcher raises its flag on a mere prefix
match in the same way; the counterexample exhibits one concrete covmap
group coming back flagged under a no-op map. -/
theorem noop_prefix_map_is_byte_identity (oldP : List Nat)
    (entries : List (List Nat)) (hents : ∀ e ∈ entries, (0 : Nat) ∉ e) :
    (∀ e : List Nat, (patchString oldP oldP e).2 = e) ∧
    (updateStringSectionInPlace oldP oldP (flattenTable entries)).1 =
      flattenTable entries ∧
    (updateStringSectionInPlace oldP oldP (flattenTable entries)).2 =
      entries.any (fun e =>
        decide (oldP.length ≤ e.length ∧ e.take oldP.length = oldP)) := by
  have hid : ∀ e : List Nat, (patchString oldP oldP e).2 = e := by
    intro e
    unfold patchString
    by_cases hc : oldP.length ≤ e.length ∧ e.take oldP.length = oldP
    · have h1 : oldP ++ e.drop oldP.length = e := by
        conv_rhs => rw [← List.take_append_drop oldP.length e]
        rw [hc.2]
      simp [hc, h1]
    · simp [hc]
  refine ⟨hid, ?_⟩
  rw [updateInPlace_flatten oldP oldP entries hents]
  refine ⟨?_, rfl⟩
  have hmap : entries.map (inPlaceSlot oldP oldP) =
      entries.map (fun e => e ++ [0]) := by
    apply List.map_congr_left
    intro e _
    unfold inPlaceSlot
    by_cases hc : oldP.length ≤ e.length ∧ e.take oldP.length = oldP
    · have h1 : oldP ++ e.drop oldP.length = e := by
        conv_rhs => rw [← List.take_append_drop oldP.length e]
        rw [hc.2]
      have h2 : (e ++ [0]).drop (e.length + 1) = [] := by
        rw [show e.length + 1 = (e ++ [0]).length from by simp,
          List.drop_length]
      simp [hc, h1, h2]
    · simp [hc]
  rw [hmap]
  rfl

theorem noop_prefix_map_is_byte_identity_witness :
    (patchString [97] [97] [97, 98]).2 = [97, 98] ∧
    (updateStringSectionInPlace [97] [97] (flattenTable [[97, 98]])).1 =
      flattenTable [[97, 98]] ∧
    (updateStringSectionInPlace [97] [97] (flattenTable [[97, 98]])).2 =
      [[97, 98]].any (fun e =>
        decide (([97] : List Nat).length ≤ e.length ∧
          e.take ([97] : List Nat).length = [97])) := by
  have h := noop_prefix_map_is_byte_identity [97] [[97, 98]] (by decide)
  exact ⟨h.1 [97, 98], h.2.1, h.2.2⟩

theorem stringAt_flattenTable :
    ∀ (es : List (List Nat)), (∀ e ∈ es, (0 : Nat) ∉ e) →
    ∀ i, ∀ h : i < es.length,
    stringAt (flattenTable es) (tableOffset es i) = es.get ⟨i, h⟩ := by
  intro es
  induction es with
  | nil =>
      intro _ i h
      exact absurd h (by simp)
  | cons e es ih =>
      intro hes i h
      have he : (0 : Nat) ∉ e := hes e (by simp)
      have hes2 : ∀ x ∈ es, (0 : Nat) ∉ x := fun x hx => hes x (by simp [hx])
      match i with
      | 0 =>
          rw [tableOffset_zero, flattenTable_cons]
          simp only [stringAt, List.drop_zero]
          rw [takeWhile_entry e _ he]
          rfl
      | i + 1 =>
          rw [tableOffset_succ, flattenTable_cons]
          simp only [stringAt]
          rw [entry_append_eq]
          rw [show e.length + 1 = (e ++ [0]).length from by simp]
          rw [List.drop_append]
          exact ih hes2 i (by simpa using h)

theorem rewrite_flatten (oldP newP : List Nat) :
    ∀ (es : List (List Nat)) (o no : Nat), (∀ e ∈ es, (0 : Nat) ∉ e) →
    rewriteStringSection oldP newP (flattenTable es) o no =
      ((List.range es.length).map (fun i =>
          (o + tableOffset es i,
            no + tableOffset (es.map (fun e => (patchString oldP newP e).2)) i)),
        es.map (fun e => (patchString oldP newP e).2),
        es.any (fun e => (patchString oldP newP e).1)) := by
  intro es
  induction es with
  | nil =>
      intro o no _
      rw [rewriteStringSection]
      simp [flattenTable]
  | cons e es ih =>
      intro o no hes
      have he : (0 : Nat) ∉ e := hes e (by simp)
      have hes2 : ∀ x ∈ es, (0 : Nat) ∉ x := fun x hx => hes x (by simp [hx])
      rw [flattenTable_cons, rewriteStringSection]
      rw [dif_neg (by simp)]
      simp only [takeWhile_entry e _ he, drop_entry]
      rw [ih (o + (e.length + 1))
        (no + (patchString oldP newP e).2.length + 1) hes2]
      refine Prod.ext ?_ (Prod.ext rfl ?_)
      · simp only [List.length_cons, List.range_succ_eq_map, List.map_cons,
          List.map_map, tableOffset_zero, Nat.add_zero]
        refine congrArg₂ _ rfl ?_
        apply List.map_congr_left
        intro j _
        simp only [Function.comp_apply, tableOffset_succ, List.map_cons,
          Prod.mk.injEq]
        exact ⟨by omega, by omega⟩
      · simp

theorem lookup_range_offsets :
    ∀ (es ps : List (List Nat)) (o no i : Nat), i < es.length →
    ((List.range es.length).map (fun j =>
        (o + tableOffset es j, no + tableOffset ps j))).lookup
      (o + tableOffset es i) = some (no + tableOffset ps i) := by
  intro es
  induction es with
  | nil =>
      intro ps o no i h
      exact absurd h (by simp)
  | cons e es ih =>
      intro ps o no i h
      match i with
      | 0 =>
          simp only [List.length_cons, List.range_succ_eq_map, List.map_cons,
            tableOffset_zero, Nat.add_zero, List.lookup]
          simp
      | i + 1 =>
          have hkey : o + tableOffset (e :: es) (i + 1) ≠ o := by
            rw [tableOffset_succ]
            omega
          have hbeq : (o + tableOffset (e :: es) (i + 1) == o) = false := by
            simpa using hkey
          simp only [List.length_cons, List.range_succ_eq_map, List.map_cons,
            List.map_map, tableOffset_zero, Nat.add_zero, List.lookup, hbeq]
          match ps with
          | [] =>
              have h0 : ∀ j, tableOffset ([] : List (List Nat)) j = 0 := by
                intro j
                simp [tableOffset]
              have hmap : (List.range es.length).map ((fun j =>
                  (o + tableOffset (e :: es) j,
                    no + tableOffset ([] : List (List Nat)) j)) ∘ Nat.succ) =
                  (List.range es.length).map (fun j =>
                    (o + (e.length + 1) + tableOffset es j,
                      no + tableOffset ([] : List (List Nat)) j)) := by
                apply List.map_congr_left
                intro j _
                simp only [Function.comp_apply, Nat.succ_eq_add_one,
                  tableOffset_succ, Prod.mk.injEq, h0]
                exact ⟨by omega, trivial⟩
              rw [hmap, tableOffset_succ,
                show o + (e.length + 1 + tableOffset es i) =
                  o + (e.length + 1) + tableOffset es i from by omega]
              have hih := ih [] (o + (e.length + 1)) no i (by simpa using h)
              simpa [h0] using hih
          | p :: ps =>
              have hmap : (List.range es.length).map ((fun j =>
                  (o + tableOffset (e :: es) j,
                    no + tableOffset (p :: ps) j)) ∘ Nat.succ) =
                  (List.range es.length).map (fun j =>
                    (o + (e.length + 1) + tableOffset es j,
                      no + (p.length + 1) + tableOffset ps j)) := by
                apply List.map_congr_left
                intro j _
                simp only [Function.comp_apply, Nat.succ_eq_add_one,
                  tableOffset_succ, Prod.mk.injEq]
                exact ⟨by omega, by omega⟩
              rw [hmap, tableOffset_succ, tableOffset_succ,
                show o + (e.length + 1 + tableOffset es i) =
                  o + (e.length + 1) + tableOffset es i from by omega,
                show no + (p.length + 1 + tableOffset ps i) =
                  no + (p.length + 1) + tableOffset ps i from by omega]
              exact ih ps (o + (e.length + 1)) (no + (p.length + 1)) i
                (by simpa using h)

/-- C2 counterexample: the claim says every strp offset whose target string
was not prefix-matched is left unchanged.  Rewriting the two-string table
"a", "z" with prefix "a" mapped to the longer "bb" produces the relocation
table {0 ↦ 0, 2 ↦ 3}: the unmatched string "z" at offset 2 is relocated to
offset 3 because the grown string before it shifted everything after it,
and the strp handler, finding 3 ≠ 2, writes the new offset 3 over the
attribute (shown on a unit whose strp attribute holds offset 2). -/
theorem strp_unmatched_offset_moves :
    rewriteStringSection [97] [98, 98] (flattenTable [[97], [122]]) 0 0 =
      ([(0, 0), (2, 3)], [[98, 98], [122]], true) ∧
    (patchString [97] [98, 98] [122]).1 = false ∧
    patchfoAttributeValue false false [(0, 0), (2, 3)] 1 4 5 14 [2, 0, 0, 0]
      0 = Except.ok ([3, 0, 0, 0], 4, true) ∧
    (2 : Nat) ≠ 3 := by
  refine ⟨?_, by decide, by rfl, by decide⟩
  rw [rewrite_flatten [97] [98, 98] [[97], [122]] 0 0 (by decide)]
  decide

/-- C2 amended: after a growing __debug_str rewrite, the relocation table
maps the original starting offset of every entry to its starting offset in
the new table, and the string found at the relocated offset in the new
table is the prefix-patched form of the original string — the identity
replacement for unmatched strings, whose offsets may nevertheless move
when an earlier string grew. -/
theorem rewrite_string_section_relocation (oldP newP : List Nat)
    (entries : List (List Nat)) (hents : ∀ e ∈ entries, (0 : Nat) ∉ e)
    (hnew : (0 : Nat) ∉ newP) :
    (rewriteStringSection oldP newP (flattenTable entries) 0 0).2.1 =
      entries.map (fun e => (patchString oldP newP e).2) ∧
    (∀ i, ∀ _ : i < entries.length,
      ((rewriteStringSection oldP newP (flattenTable entries) 0 0).1).lookup
          (tableOffset entries i) =
        some (tableOffset
          (entries.map (fun e => (patchString oldP newP e).2)) i)) ∧
    (∀ i, ∀ h : i < entries.length,
      stringAt
        (flattenTable (entries.map (fun e => (patchString oldP newP e).2)))
        (tableOffset (entries.map (fun e => (patchString oldP newP e).2)) i) =
        (patchString oldP newP (entries.get ⟨i, h⟩)).2) := by
  rw [rewrite_flatten oldP newP entries 0 0 hents]
  refine ⟨rfl, ?_, ?_⟩
  · intro i h
    have := lookup_range_offsets entries
      (entries.map (fun e => (patchString oldP newP e).2)) 0 0 i h
    simpa using this
  · intro i h
    have hpes : ∀ x ∈ entries.map (fun e => (patchString oldP newP e).2),
        (0 : Nat) ∉ x := by
      intro x hx
      obtain ⟨e, he, rfl⟩ := List.mem_map.mp hx
      exact patchString_noNul oldP newP e (hents e he) hnew
    have hlen : i < (entries.map (fun e => (patchString oldP newP e).2)).length := by
      simpa using h
    rw [stringAt_flattenTable _ hpes i hlen]
    simp [List.get_eq_getElem, List.getElem_map]

theorem rewrite_string_section_relocation_witness :
    (rewriteStringSection [97] [98, 98] (flattenTable [[97], [122]]) 0 0).2.1 =
      [[97], [122]].map (fun e => (patchString [97] [98, 98] e).2) ∧
    ((rewriteStringSection [97] [98, 98] (flattenTable [[97], [122]]) 0
        0).1).lookup (tableOffset [[97], [122]] 1) =
      some (tableOffset
        ([[97], [122]].map (fun e => (patchString [97] [98, 98] e).2)) 1) ∧
    stringAt
      (flattenTable ([[97], [122]].map (fun e => (patchString [97] [98, 98] e).2)))
      (tableOffset ([[97], [122]].map (fun e => (patchString [97] [98, 98] e).2)) 1) =
      (patchString [97] [98, 98] [122]).2 := by
  have h := rewrite_string_section_relocation [97] [98, 98] [[97], [122]]
    (by decide) (by decide)
  exact ⟨h.1, h.2.1 1 (by decide), h.2.2 1 (by decide)⟩

theorem dirTableLength_append_single (dirs : List (List Nat)) (d : List Nat) :
    dirTableLength (dirs ++ [d]) = dirTableLength dirs + d.length + 1 := by
  simp [dirTableLength, List.sum_append]
  omega

theorem dirTableLength_pos (dirs : List (List Nat)) : 1 ≤ dirTableLength dirs := by
  simp [dirTableLength]

/-- C6: in a __debug_line compilation unit whose patched directory table
came out shorter than the original, ProcessLineInfoData appends, when the
shortfall is exactly one byte, the one-byte directory "!" so the recorded
table length becomes the shrunk length plus two — one byte more than the
original, forcing the unit to grow (a LineInfoPatch with a positive size
increase); and, when the shortfall is at least two bytes, a single padding
directory sized to the difference minus its NUL terminator, making the new
table exactly as long as the original so the section is patched in
place. -/
theorem line_dir_table_resizing (oldP newP : List Nat)
    (dirs : List (List Nat))
    (hmod : (dirs.map (fun d => patchString oldP newP d)).any
      (fun p => p.1) = true) :
    (dirTableLength (dirs.map (fun d => (patchString oldP newP d).2)) =
        dirTableLength dirs - 1 →
      processDirTable oldP newP dirs =
        (dirs.map (fun d => (patchString oldP newP d).2) ++ [[33]],
          dirTableLength dirs + 1, true) ∧
      dirTableLength
          (dirs.map (fun d => (patchString oldP newP d).2) ++ [[33]]) =
        dirTableLength dirs + 1) ∧
    (dirTableLength (dirs.map (fun d => (patchString oldP newP d).2)) + 2 ≤
        dirTableLength dirs →
      processDirTable oldP newP dirs =
        (dirs.map (fun d => (patchString oldP newP d).2) ++
            [List.replicate (dirTableLength dirs -
              dirTableLength (dirs.map (fun d => (patchString oldP newP d).2))
                - 1) 33],
          dirTableLength dirs, true) ∧
      dirTableLength
          (dirs.map (fun d => (patchString oldP newP d).2) ++
            [List.replicate (dirTableLength dirs -
              dirTableLength (dirs.map (fun d => (patchString oldP newP d).2))
                - 1) 33]) =
        dirTableLength dirs) := by
  have h1 := dirTableLength_pos dirs
  have hpos := dirTableLength_pos (dirs.map (fun d => (patchString oldP newP d).2))
  have hcomp : (dirs.map (fun d => patchString oldP newP d)).map (fun p => p.2) =
      dirs.map (fun d => (patchString oldP newP d).2) := by
    rw [List.map_map]
    rfl
  constructor
  · intro hshort
    constructor
    · unfold processDirTable
      simp only [hcomp, hmod, Bool.not_true]
      rw [if_neg (by decide), if_pos hshort, hshort]
      simp only [Prod.mk.injEq]
      refine ⟨trivial, by omega, trivial⟩
    · rw [dirTableLength_append_single, hshort]
      simp
      omega
  · intro hshort
    have hne : dirTableLength (dirs.map (fun d => (patchString oldP newP d).2)) ≠
        dirTableLength dirs - 1 := by omega
    have hlt : dirTableLength (dirs.map (fun d => (patchString oldP newP d).2)) <
        dirTableLength dirs := by omega
    constructor
    · unfold processDirTable
      simp only [hcomp, hmod, Bool.not_true]
      rw [if_neg (by decide), if_neg hne, if_pos hlt]
    · rw [dirTableLength_append_single]
      simp
      omega

theorem line_dir_table_resizing_witness :
    processDirTable [97, 98] [97] [[97, 98]] = ([[97], [33]], 5, true) ∧
    processDirTable [97, 98, 99] [97] [[97, 98, 99]] =
      ([[97], [33]], 5, true) := by
  have h1 := (line_dir_table_resizing [97, 98] [97] [[97, 98]]
    (by decide)).1 (by decide)
  have h2 := (line_dir_table_resizing [97, 98, 99] [97] [[97, 98, 99]]
    (by decide)).2 (by decide)
  constructor
  · rw [h1.1]
    decide
  · rw [h2.1]
    decide

theorem entryAt_encoded :
    ∀ (fs : List (List Nat)) (i : Nat) (h : i < fs.length) (tail : List Nat),
    entryAt i ((fs.map (fun f => encodeLEB128 f.length ++ f)).flatten ++ tail)
      = some (fs.get ⟨i, h⟩) := by
  intro fs
  induction fs with
  | nil =>
      intro i h
      exact absurd h (by simp)
  | cons f fs ih =>
      intro i h tail
      have hassoc : ((f :: fs).map (fun f => encodeLEB128 f.length ++ f)).flatten
          ++ tail = encodeLEB128 f.length ++
            (f ++ ((fs.map (fun f => encodeLEB128 f.length ++ f)).flatten
              ++ tail)) := by
        simp
      rw [hassoc]
      have hle : f.length ≤ (f ++ ((fs.map (fun f =>
          encodeLEB128 f.length ++ f)).flatten ++ tail)).length := by
        simp
      match i with
      | 0 =>
          rw [entryAt, decodeULEB_encode]
          dsimp only
          rw [if_pos hle]
          rw [show f.length = (f : List Nat).length from rfl, List.take_left]
          rfl
      | i + 1 =>
          rw [entryAt, decodeULEB_encode]
          dsimp only
          rw [if_pos hle, List.drop_left]
          exact ih i (by simpa using h) tail

/-- C10: FilenameGroup::Serialize emits the real filenames of the group, in
their original order, before any synthetic filler bytes, so whenever
serialization succeeds the filename read back at index i of the serialized
group is exactly the i-th filename of the group — coverage records that
reference filenames by index stay valid, and fillers only occupy indices
past the real filenames. -/
theorem serialize_preserves_filename_indices (g : FilenameGroup)
    (minimumSize : Nat) (out : List Nat)
    (hser : serialize g minimumSize = some out) :
    ∀ i, ∀ h : i < g.filenames.length,
    filenameAtIndex out i = some (g.filenames.get ⟨i, h⟩) := by
  intro i h
  unfold serialize at hser
  by_cases hp : (if g.size < minimumSize then minimumSize - g.size else 0) = 0
  · rw [if_pos hp] at hser
    rw [Option.some_inj] at hser
    subst hser
    unfold filenameAtIndex
    rw [decodeULEB_encode]
    have := entryAt_encoded g.filenames i h []
    simpa using this
  · rw [if_neg hp] at hser
    by_cases hadd : (if g.size < minimumSize then minimumSize - g.size
        else 0) ≤
        encodedLEB128Size (g.filenames.length +
          ((if g.size < minimumSize then minimumSize - g.size else 0) + 127)
            / 128) -
          encodedLEB128Size g.filenames.length
    · rw [if_pos hadd] at hser
      exact absurd hser (by simp)
    · rw [if_neg hadd] at hser
      rw [Option.some_inj] at hser
      subst hser
      unfold filenameAtIndex
      rw [List.append_assoc, decodeULEB_encode]
      exact entryAt_encoded g.filenames i h _

theorem serialize_preserves_filename_indices_witness :
    serialize { size := 6, filenames := [[97], [98, 99]] } 8 =
      some [3, 1, 97, 2, 98, 99, 1, 0] ∧
    filenameAtIndex [3, 1, 97, 2, 98, 99, 1, 0] 0 = some [97] ∧
    filenameAtIndex [3, 1, 97, 2, 98, 99, 1, 0] 1 = some [98, 99] := by
  have hser : serialize { size := 6, filenames := [[97], [98, 99]] } 8 =
      some [3, 1, 97, 2, 98, 99, 1, 0] := by
    rw [serialize]
    norm_num [encodeLEB128_lt, encodedLEB128Size_lt]
    rw [paddingBytes]
    norm_num
  exact ⟨hser,
    serialize_preserves_filename_indices _ 8 _ hser 0 (by decide),
    serialize_preserves_filename_indices _ 8 _ hser 1 (by decide)⟩

/-- C8 counterexample: the claim says a missing section is never surfaced
as an error by any patcher path, the __debug_info walk included.  But
PatchInfoSection (dwarf_string_patcher.cc, lines 373-376) returns
ERR_INVALID_FILE when __debug_info is absent: a slice whose __debug_str
holds a matched string, patched with a longer prefix (forcing the growing
rewrite and the subsequent info walk), fails with ERR_INVALID_FILE when it
has no __debug_info section. -/
theorem missing_debug_info_is_error :
    dwarfPatcherPatch [97] [98, 98]
      { debugLine := none, debugStr := some [97], debugAbbrev := none,
        debugInfo := none, swap := false } = ReturnCode.invalidFile := by
  have hrw := rewrite_flatten [97] [98, 98] [[97]] 0 0 (by decide)
  have hflat : flattenTable [[97]] = [97, 0] := rfl
  rw [hflat] at hrw
  simp [dwarfPatcherPatch, patchLineInfoSection, hrw, patchString,
    processAbbrevSectionOpt, patchInfoSection]

/-- C8 amended: a missing __llvm_covmap is a warning and the covmap
patcher returns ERR_OK; missing __debug_line and __debug_str sections are
warnings and the DWARF patcher returns ERR_OK; but when a growing
__debug_str rewrite takes place (new prefix longer, some string matched),
a missing __debug_info section is surfaced as ERR_INVALID_FILE rather
than a warning. -/
theorem missing_sections_policy (oldP newP : List Nat) (sw : Bool) :
    covmapPatcherPatch oldP newP sw none = ReturnCode.ok ∧
    dwarfPatcherPatch oldP newP
      { debugLine := none, debugStr := none, debugAbbrev := none,
        debugInfo := none, swap := sw } = ReturnCode.ok ∧
    (∀ (entries : List (List Nat)) (strData : List Nat),
      (∀ e ∈ entries, (0 : Nat) ∉ e) →
      oldP.length < newP.length →
      entries.any (fun e => (patchString oldP newP e).1) = true →
      strData ++ [0] = flattenTable entries →
      dwarfPatcherPatch oldP newP
        { debugLine := none, debugStr := some strData, debugAbbrev := none,
          debugInfo := none, swap := sw } = ReturnCode.invalidFile) := by
  refine ⟨rfl, by simp [dwarfPatcherPatch, patchLineInfoSection], ?_⟩
  intro entries strData hents hlen hmatch hdata
  have hrw := rewrite_flatten oldP newP entries 0 0 hents
  rw [← hdata] at hrw
  simp [dwarfPatcherPatch, patchLineInfoSection, hrw, hmatch,
    Nat.not_le.mpr hlen, processAbbrevSectionOpt, patchInfoSection]

theorem missing_sections_policy_witness :
    covmapPatcherPatch [97] [98, 98] false none = ReturnCode.ok ∧
    dwarfPatcherPatch [97] [98, 98]
      { debugLine := none, debugStr := none, debugAbbrev := none,
        debugInfo := none, swap := false } = ReturnCode.ok ∧
    dwarfPatcherPatch [97] [98, 98]
      { debugLine := none, debugStr := some [97], debugAbbrev := none,
        debugInfo := none, swap := false } = ReturnCode.invalidFile := by
  have h := missing_sections_policy [97] [98, 98] false
  exact ⟨h.1, h.2.1, h.2.2 [[97]] [97] (by decide) (by decide) (by decide) rfl⟩

/-- C1: the spec claims that re-serializing a prefix-shrunk filename group
with the original size as the minimum always reproduces exactly the
original byte count, with any padding of at most 128 bytes consumed by one
filler filename whose length byte is padding minus one — explicitly
including padding equal to 1.  The code contradicts this (and its own
comments on lines 385-388 and 406-407 of covmap_section.cc): for a group
of natural size 3 (the single filename "a", as produced by patching "ab"
with a one-byte-shorter prefix) and minimum size 4, the padding of 1 is
counted in the emitted string count (2) but the guarded copy on lines
410-414 writes nothing, so only 3 bytes come out. -/
theorem covmap_serialize_padding_one_falls_short :
    serialize { size := 3, filenames := [[97]] } 4 = some [2, 1, 97] ∧
    ([2, 1, 97] : List Nat).length ≠ 4 := by
  constructor
  · rw [serialize]
    norm_num [encodeLEB128_lt, encodedLEB128Size_lt]
    rw [paddingBytes]
    norm_num
  · decide

/-- C3 counterexample: the claim says the __debug_info walker selects
DWARF-64 exactly when the initial 32-bit unit length equals 0xFFFFFFFF.
With the initial length 0x80000000 — which is not 0xFFFFFFFF — the walker
nevertheless takes the DWARF-64 path, reading a following 64-bit unit
length, because line 394 of dwarf_string_patcher.cc tests the high bit
rather than comparing against 0xFFFFFFFF. -/
theorem info_unit_length_64bit_without_ffffffff :
    readInfoUnitLength false [0, 0, 0, 128, 1, 0, 0, 0, 0, 0, 0, 0] 0 =
      some (true, 1, 12) ∧ (2147483648 : Nat) ≠ 4294967295 := by
  constructor
  · decide
  · decide

/-- C3 amended: the __debug_info walker treats a compilation unit as
DWARF-64 (reading a following 64-bit unit length, with 64-bit offset reads
and writes) if and only if bit 31 of the initial 32-bit unit length is set
(0x80000000 ≤ unitLength for 32-bit values), and as DWARF-32 otherwise. -/
theorem info_unit_is64_iff_high_bit (n : Nat) (h : n < 4294967296) :
    infoUnitIs64Bit n = true ↔ 2147483648 ≤ n := by
  have h2 : n &&& 2147483648 = (n.testBit 31).toNat * 2147483648 := by
    have h3 := Nat.and_two_pow n 31
    norm_num at h3
    exact h3
  rw [Nat.testBit_to_div_mod] at h2
  simp only [infoUnitIs64Bit, h2]
  rcases Nat.decEq (n / 2 ^ 31 % 2) 1 with hd | hd
  · simp [hd]
    omega
  · simp [hd]
    omega

theorem info_unit_is64_iff_high_bit_witness :
    (2147483648 : Nat) < 4294967296 ∧
      (infoUnitIs64Bit 2147483648 = true ↔ (2147483648 : Nat) ≤ 2147483648) :=
  ⟨by decide, info_unit_is64_iff_high_bit 2147483648 (by decide)⟩

/-- C4: the claim says that with the swap flag set, ReadWORD, ReadDWORD
and ReadQWORD return byte-swapped values and the strp write path stores a
byte-swapped offset.  The code discards every OSSwapInt16/32/64 return
value (dwarf_buffer_reader.cc lines 42-44, 56-58, 70-72;
dwarf_string_patcher.cc lines 402-410 and 421-430), so with swap set the
raw little-endian values are returned and stored, diverging from the
documented behavior at every multi-byte read and at the write path; only
the swap-unset half of the claim holds. -/
theorem readers_and_writer_discard_byte_swap :
    readWORD true [1, 2] = some (513, []) ∧
    readWORDSpec true [1, 2] = some (258, []) ∧
    readDWORD true [1, 2, 3, 4] = some (67305985, []) ∧
    readDWORDSpec true [1, 2, 3, 4] = some (16909060, []) ∧
    readQWORD true [1, 2, 3, 4, 5, 6, 7, 8] = some (578437695752307201, []) ∧
    readQWORDSpec true [1, 2, 3, 4, 5, 6, 7, 8] =
      some (72623859790382856, []) ∧
    infoWriteFunc32 true [0, 0, 0, 0] 16909060 0 = [4, 3, 2, 1] ∧
    infoWriteFunc32Spec true [0, 0, 0, 0] 16909060 0 = [1, 2, 3, 4] ∧
    readWORD false [1, 2] = some (513, []) ∧
    readWORDSpec false [1, 2] = some (513, []) ∧
    (513 : Nat) ≠ 258 := by
  decide

/-- C5: the claim says ReadULEB128 returns every uint64 value from its
well-formed encoding.  The accumulation on line 88 of
dwarf_buffer_reader.cc casts each 7-bit group to a 32-bit uint before
shifting, so the group contribution is truncated modulo 2^32: the
five-byte encoding of 2^32 (produced by the encoder of covmap_section.cc)
decodes to 0.  The buffer-exhaustion half of the claim does hold: an
unterminated encoding fails. -/
theorem readULEB128_32bit_truncation :
    encodeLEB128 4294967296 = [128, 128, 128, 128, 16] ∧
    readULEB128 [128, 128, 128, 128, 16] 0 0 = some (0, []) ∧
    (0 : Nat) ≠ 4294967296 ∧
    readULEB128 [128] 0 0 = none := by
  refine ⟨by simp [encodeLEB128], by decide, by decide, by decide⟩

end PostProcessor
